import Mathlib

/-!
# Verification of the news_telegram interaction & alert store

A shallow embedding of the stateful core of `app.py`:

* the **alerts** table and the notification matcher `notify_alerts`,
* the **interactions** table and the aggregate queries behind
  `/history`, `/mytopics`, `/trending`, `/discover`,
* the `/news` request pipeline (`news_command`),
* the subscription commands `/alert` and `/removealert`.

SQL tables are modelled as Lean lists of rows (append = `INSERT`, the
surrogate `id` column is an explicit field).  SQLite's `CURRENT_TIMESTAMP`
strings are modelled as `Nat` (string comparison on the `YYYY-MM-DD
HH:MM:SS` format is order-isomorphic to chronological order).  Python
strings in the matcher are modelled as `List Char`; the ASCII fragment of
Python's Unicode word-character class and case folding is modelled
(`isWordChar`, `Char.toLower`), which covers all keywords and texts
appearing in the specification.
-/

/-! ## Keyword matching (`notify_alerts`, app.py lines 63-66)

The source tests `re.search(r'\b{}\b'.format(re.escape(keyword)),
news_data, flags=re.IGNORECASE)`.  Since the keyword is `re.escape`d it is
matched literally; the regex semantics is: there is a position `i` in the
text where the keyword occurs case-insensitively and both `i` and
`i + len(keyword)` are word boundaries (`\b`): positions where exactly one
of the adjacent characters is a word character (string edges count as
non-word). -/

/-- Word character of the regex class `\w` (ASCII fragment): letters,
digits, underscore. -/
def isWordChar (c : Char) : Bool := c.isAlphanum || c == '_'

/-- Word-character-ness of an optional character; the absent character
(string edge) is not a word character. -/
def edgeWord : Option Char → Bool
  | some c => isWordChar c
  | none => false

/-- Word-character-ness of position `i` of the text (out of range counts
as non-word, as at a string edge). -/
def wordAt (t : List Char) (i : Nat) : Bool := edgeWord t[i]?

/-- Regex `\b` at position `i` of text `t`: exactly one of the two
adjacent characters is a word character. -/
def boundaryAt (t : List Char) (i : Nat) : Bool :=
  match i with
  | 0 => wordAt t 0
  | j + 1 => wordAt t j != wordAt t (j + 1)

/-- The keyword occurs (case-insensitively, per `re.IGNORECASE`) at
position `i` of the text. -/
def lowerEqAt (k t : List Char) (i : Nat) : Bool :=
  ((t.drop i).take k.length).map Char.toLower == k.map Char.toLower

/-- `re.search(r'\b' + re.escape(k) + r'\b', t, re.IGNORECASE)` is not
`None`: some position carries a case-insensitive occurrence of `k`
flanked by word boundaries (app.py lines 65-66). -/
def keywordMatches (k t : List Char) : Bool :=
  (List.range (t.length + 1)).any fun i =>
    lowerEqAt k t i && boundaryAt t i && boundaryAt t (i + k.length)

/-- Specification-side statement of the matcher test: `k` occurs in `t`
as a whole word under case-insensitive comparison — `t` splits as
`pre ++ mid ++ post` where `mid` equals `k` up to case and both seams are
word boundaries. -/
def OccursAsWholeWord (k t : List Char) : Prop :=
  ∃ pre mid post : List Char,
    t = pre ++ mid ++ post ∧
    mid.map Char.toLower = k.map Char.toLower ∧
    edgeWord pre.getLast? ≠ edgeWord (mid ++ post).head? ∧
    edgeWord (pre ++ mid).getLast? ≠ edgeWord post.head?

/-! ## The alerts table and the notification matcher

`alerts` rows (`init_alerts_db`): surrogate `id`, `chat_id`, `keyword`.
`notify_alerts` (app.py lines 55-71) reads `SELECT DISTINCT chat_id,
keyword FROM alerts`, iterates the distinct pairs, and sends at most one
alert per chat per invocation, recording notified chats in
`already_notified`. -/

/-- A row of the `alerts` table. -/
structure AlertRow where
  id : Nat
  chat_id : String
  keyword : String
deriving DecidableEq

/-- The projection read by the matcher: `(chat_id, keyword)` pairs in row
order. -/
def alertPairs (db : List AlertRow) : List (String × String) :=
  db.map fun r => (r.chat_id, r.keyword)

/-- `SELECT DISTINCT`: first occurrence of each pair is kept, later
duplicates dropped (`seen` accumulates the pairs already produced). -/
def firstDedupGo (seen : List (String × String)) :
    List (String × String) → List (String × String)
  | [] => []
  | p :: ps =>
    if p ∈ seen then firstDedupGo seen ps
    else p :: firstDedupGo (p :: seen) ps

/-- The distinct `(chat_id, keyword)` pairs of the alerts table, in first
occurrence order. -/
def firstDedup (l : List (String × String)) : List (String × String) :=
  firstDedupGo [] l

/-- The loop of `notify_alerts` (app.py lines 62-71): for each
`(chat_id, keyword)` row, if the keyword matches the text and the chat was
not already notified in this invocation, emit the pair and mark the chat
notified. Returns the emitted notifications in order. -/
def notifyGo (text : List Char) (notified : List String) :
    List (String × String) → List (String × String)
  | [] => []
  | r :: rs =>
    if keywordMatches r.2.data text ∧ r.1 ∉ notified then
      r :: notifyGo text (r.1 :: notified) rs
    else
      notifyGo text notified rs

/-- `notify_alerts` applied to an explicit row list: emitted
notifications `(chat_id, keyword)` for one block of text. -/
def notifyAlerts (rows : List (String × String)) (text : List Char) :
    List (String × String) :=
  notifyGo text [] rows

/-- `notify_alerts` reading its rows from the alerts table
(`SELECT DISTINCT chat_id, keyword FROM alerts`). -/
def notifyFromDb (db : List AlertRow) (text : List Char) :
    List (String × String) :=
  notifyAlerts (firstDedup (alertPairs db)) text

/-! ## Subscription commands (`alert_command`, `removealert_command`) -/

/-- `alert_command` insert (app.py line 292): one new row, no dedup; the
surrogate key is supplied by the store (`AUTOINCREMENT`). -/
def subscribe (db : List AlertRow) (newId : Nat) (chat keyword : String) :
    List AlertRow :=
  db ++ [⟨newId, chat, keyword⟩]

/-- `removealert_command` delete (app.py lines 320-321):
`DELETE FROM alerts WHERE chat_id = ? AND keyword = ?` followed by
`c.rowcount`. Returns the remaining table and the number of rows
removed. -/
def unsubscribe (db : List AlertRow) (chat keyword : String) :
    List AlertRow × Nat :=
  (db.filter fun r => !(decide (r.chat_id = chat ∧ r.keyword = keyword)),
   db.countP fun r => decide (r.chat_id = chat ∧ r.keyword = keyword))

/-! ## The interactions table and the aggregate queries -/

/-- A row of the `interactions` table (`init_db`). `timestamp` models the
`DATETIME DEFAULT CURRENT_TIMESTAMP` column (string comparison on the
stored format is order-isomorphic to `Nat` comparison). -/
structure InteractionRow where
  id : Nat
  chat_id : String
  input_topic : String
  news_data : String
  summary : String
  timestamp : Nat
deriving DecidableEq

/-- All `input_topic` values of a row list, in row order. -/
def topicsOf (db : List InteractionRow) : List String :=
  db.map fun r => r.input_topic

/-- The rows of a given chat (`WHERE chat_id = ?`). -/
def rowsOfChat (db : List InteractionRow) (chat : String) :
    List InteractionRow :=
  db.filter fun r => decide (r.chat_id = chat)

/-- `GROUP BY input_topic` with `COUNT(*)`: one `(topic, count)` pair per
distinct topic, in first-occurrence order. -/
def topicCounts (db : List InteractionRow) : List (String × Nat) :=
  (topicsOf db).dedup.map fun t => (t, (topicsOf db).count t)

/-- `ORDER BY count DESC LIMIT n` over the global topic counts
(`trending_command`, and `discover_command`'s first query with `n = 10`).
Tie order among equal counts is not pinned down by the SQL; the embedding
fixes one sort. -/
def globalTopicFrequency (db : List InteractionRow) (n : Nat) :
    List (String × Nat) :=
  ((topicCounts db).insertionSort fun a b => b.2 ≤ a.2).take n

/-- Topic set of the global top-10 (`discover_command` lines 252-259). -/
def trendingTopics (db : List InteractionRow) : List String :=
  (globalTopicFrequency db 10).map Prod.fst

/-- Per-chat `GROUP BY input_topic` counts (`mytopics_command`). -/
def chatTopicCounts (db : List InteractionRow) (chat : String) :
    List (String × Nat) :=
  topicCounts (rowsOfChat db chat)

/-- `topic_frequency(chat_id, n)`: per-chat counts, `ORDER BY count DESC
LIMIT n` (`mytopics_command` lines 225-232 with `n = 5`). -/
def topicFrequency (db : List InteractionRow) (chat : String) (n : Nat) :
    List (String × Nat) :=
  ((chatTopicCounts db chat).insertionSort fun a b => b.2 ≤ a.2).take n

/-- `SELECT DISTINCT input_topic FROM interactions WHERE chat_id = ?`
(`discover_command` lines 262-266): the chat's explored topics. -/
def distinctTopicsFor (db : List InteractionRow) (chat : String) :
    List String :=
  (topicsOf (rowsOfChat db chat)).dedup

/-- `discover_command` line 271: `unexplored = list(trending - personal)`,
the set difference of the two Python sets. Membership is the contract;
Python's set iteration order is arbitrary, the embedding keeps trending
order. -/
def discoverUnexplored (db : List InteractionRow) (chat : String) :
    List String :=
  (trendingTopics db).filter fun t => decide (t ∉ distinctTopicsFor db chat)

/-- `discover_command` lines 273-274: the "You've already explored all top
trending topics!" branch is taken exactly when `unexplored` is empty. -/
def nothingToDiscover (db : List InteractionRow) (chat : String) : Bool :=
  (discoverUnexplored db chat).isEmpty

/-! ## The `/history` query (`history_command`)

`SELECT timestamp, input_topic, summary FROM interactions WHERE chat_id =
? ORDER BY timestamp DESC LIMIT ?` (app.py lines 198-204). The SQL names
no secondary sort key, so the order of rows with equal `timestamp` is not
determined; the query is embedded as a relation between the table and the
possible result lists: any permutation of the chat's rows that is
non-increasing in `timestamp`, truncated to the limit. -/

/-- Non-increasing timestamps: most-recent-first. -/
def TimestampDesc (res : List InteractionRow) : Prop :=
  res.Pairwise fun a b => b.timestamp ≤ a.timestamp

/-- The result lists the history query may return. -/
def historyQuery (db : List InteractionRow) (chat : String) (n : Nat)
    (res : List InteractionRow) : Prop :=
  ∃ sorted : List InteractionRow,
    sorted.Perm (rowsOfChat db chat) ∧
    TimestampDesc sorted ∧
    res = sorted.take n

/-- The ordering the claim asserts: most-recent-first with ties broken by
descending surrogate key. -/
def MostRecentFirstIdTieBreak (res : List InteractionRow) : Prop :=
  res.Pairwise fun a b =>
    b.timestamp < a.timestamp ∨ (b.timestamp = a.timestamp ∧ b.id < a.id)

/-- `history_command` limit parsing (app.py lines 189-193):
`n = int(args[0]) if args and args[0].isdigit() else 3`, any exception
also yielding 3. `isdigit` is true exactly for non-empty all-digit
strings. -/
def isDigitString (s : String) : Bool :=
  !s.data.isEmpty && s.data.all Char.isDigit

/-- `int` on an all-digit string. -/
def natOfDigits (s : String) : Nat :=
  s.data.foldl (fun acc c => acc * 10 + (c.toNat - 48)) 0

/-- The effective row limit used by `history_command`. -/
def parseLimit (args : List String) : Nat :=
  match args with
  | [] => 3
  | a :: _ => if isDigitString a then natOfDigits a else 3

/-! ## The `/news` pipeline (`news_command`)

`news_command` (app.py lines 143-181): normalize the topic, fetch text,
run `notify_alerts` over the fetched text, then check the error prefixes;
on a fetch error send the fetched text and return (no append); on a
summarization error send the summary and return (no append); otherwise
send the digest and append one interaction row. Markdown escaping and
truncation of the digest are presentation and are elided. -/

/-- Python's `" ".join(context.args)` (app.py line 145). -/
def joinArgs (args : List String) : List Char :=
  (String.intercalate " " args).data

/-- Python's `str.strip()`: drop leading and trailing whitespace. -/
def stripList (s : List Char) : List Char :=
  ((s.dropWhile Char.isWhitespace).reverse.dropWhile Char.isWhitespace).reverse

/-- `" ".join(context.args).lower().strip()` (app.py line 145). -/
def normalizeTopic (args : List String) : List Char :=
  stripList ((joinArgs args).map Char.toLower)

/-- `input_topic = " ".join(context.args).lower().strip() or "India"`:
the normalized topic, or the literal fallback `"India"` when it is empty
(Python `or` takes the right operand on an empty string). -/
def computeInputTopic (args : List String) : List Char :=
  let t := normalizeTopic args
  if t = [] then "India".data else t

/-- `news_data.startswith(("Error:", "No news"))` (app.py line 154). -/
def startsWithErr (s : List Char) : Bool :=
  "Error:".data.isPrefixOf s || "No news".data.isPrefixOf s

/-- `summary.startswith(("AI summarization failed:", "Gemini AI API
error:"))` (app.py line 158). -/
def startsWithAiErr (s : List Char) : Bool :=
  "AI summarization failed:".data.isPrefixOf s ||
    "Gemini AI API error:".data.isPrefixOf s

/-- The user-visible reply of one `/news` request (digest formatting
elided). -/
inductive NewsReply where
  | fetchError (text : List Char)
  | aiError (text : List Char)
  | digest (summary : List Char)
deriving DecidableEq

/-- Outcome of one `/news` request: the notifications emitted by
`notify_alerts`, the reply sent to the user, and whether
`log_interaction` appended a row. -/
structure NewsResult where
  notified : List (String × String)
  reply : NewsReply
  logged : Bool
deriving DecidableEq

/-- The `/news` control flow after the fetch (app.py lines 152-181):
matching runs on the fetched text before the error-prefix check; the
append happens only on the full-success path. -/
def newsPipeline (alertsDb : List AlertRow) (newsData summary : List Char) :
    NewsResult :=
  let notes := notifyFromDb alertsDb newsData
  if startsWithErr newsData then
    { notified := notes, reply := .fetchError newsData, logged := false }
  else if startsWithAiErr summary then
    { notified := notes, reply := .aiError summary, logged := false }
  else
    { notified := notes, reply := .digest summary, logged := true }

/-- Predicates used to state normalization: no ASCII uppercase letter
remains. -/
def noUpperList (s : List Char) : Bool :=
  s.all fun c => !c.isUpper

/-- No leading or trailing whitespace (the result of a `strip`). -/
def noEdgeWhitespace (s : List Char) : Bool :=
  !(s.head?.elim false Char.isWhitespace) &&
    !(s.getLast?.elim false Char.isWhitespace)

/-! ## Concrete example tables used in the testable properties -/

/-- P7 example: global top topics `{a,b,c,d}`, chat `c1` explored
`{a,b}`. -/
def dbP7 : List InteractionRow :=
  [⟨1, "c1", "a", "", "", 1⟩, ⟨2, "c1", "b", "", "", 2⟩,
   ⟨3, "c2", "c", "", "", 3⟩, ⟨4, "c2", "d", "", "", 4⟩]

/-- P7 example continued: chat `c1` has explored every trending topic. -/
def dbP7full : List InteractionRow :=
  dbP7 ++ [⟨5, "c1", "c", "", "", 5⟩, ⟨6, "c1", "d", "", "", 6⟩]

/-- P3 example: records with topics `a`, `a`, `b` for chat `c`. -/
def dbC9 : List InteractionRow :=
  [⟨1, "c", "a", "", "", 1⟩, ⟨2, "c", "a", "", "", 2⟩,
   ⟨3, "c", "b", "", "", 3⟩]

/-- The count-descending comparison used by the `ORDER BY count DESC`
embeddings is total. -/
instance : IsTotal (String × Nat) fun a b => b.2 ≤ a.2 :=
  ⟨fun a b => Nat.le_total b.2 a.2⟩

/-- The count-descending comparison is transitive. -/
instance : IsTrans (String × Nat) fun a b => b.2 ≤ a.2 :=
  ⟨fun _ _ _ hab hbc => Nat.le_trans hbc hab⟩

/-! # Theorems -/

/-- Python's `str.lower` never produces an ASCII uppercase letter. -/
theorem toLower_not_upper (c : Char) : (c.toLower).isUpper = false := by
  simp only [Char.toLower]
  by_cases hc : c.toNat ≥ 65 ∧ c.toNat ≤ 90
  · rw [if_pos hc]
    obtain ⟨h1, h2⟩ := hc
    have hvalid : (c.toNat + 32).isValidChar := by
      left
      omega
    unfold Char.ofNat
    rw [dif_pos hvalid]
    have hval : (Char.ofNatAux (c.toNat + 32) hvalid).val.toNat = c.toNat + 32 := rfl
    simp only [Char.isUpper]
    rw [Bool.and_eq_false_iff]
    right
    rw [decide_eq_false_iff_not]
    intro hle
    have h90 : (Char.ofNatAux (c.toNat + 32) hvalid).val.toNat ≤ (90 : UInt32).toNat := hle
    rw [hval] at h90
    have e2 : (90 : UInt32).toNat = 90 := rfl
    rw [e2] at h90
    omega
  · rw [if_neg hc]
    simp only [Char.isUpper]
    rw [Bool.and_eq_false_iff]
    by_cases h65 : (65 : UInt32) ≤ c.val
    · right
      rw [decide_eq_false_iff_not]
      intro hle
      apply hc
      have t1 : (65 : UInt32).toNat ≤ c.val.toNat := h65
      have t2 : c.val.toNat ≤ (90 : UInt32).toNat := hle
      have e1 : (65 : UInt32).toNat = 65 := rfl
      have e2 : (90 : UInt32).toNat = 90 := rfl
      rw [e1] at t1
      rw [e2] at t2
      have e3 : c.toNat = c.val.toNat := rfl
      constructor <;> [rw [ge_iff_le, e3]; rw [e3]] <;> omega
    · left
      rw [decide_eq_false_iff_not]
      exact h65

/-- `\b` at the seam of an append, in terms of the two sides. -/
theorem boundary_append (pre rest : List Char) :
    boundaryAt (pre ++ rest) pre.length
      = (edgeWord pre.getLast? != edgeWord rest.head?) := by
  rcases hp : pre.length with _ | j
  · have hpre : pre = [] := List.length_eq_zero.mp hp
    subst hpre
    show wordAt rest 0 = (edgeWord ([] : List Char).getLast? != edgeWord rest.head?)
    rw [wordAt, List.head?_eq_getElem?]
    show edgeWord rest[0]? = (false != edgeWord rest[0]?)
    cases edgeWord rest[0]? <;> rfl
  · show (wordAt (pre ++ rest) j != wordAt (pre ++ rest) (j + 1))
        = (edgeWord pre.getLast? != edgeWord rest.head?)
    have hj : j < pre.length := by omega
    have h1 : (pre ++ rest)[j]? = pre[j]? := List.getElem?_append_left hj
    have h2 : (pre ++ rest)[j + 1]? = rest[0]? := by
      rw [← hp, List.getElem?_append_right (le_refl _)]
      simp
    rw [wordAt, wordAt, h1, h2, List.head?_eq_getElem?, List.getLast?_eq_getElem?, hp]
    norm_num

/-- `\b` at position `i` of `t`, in terms of the split at `i`. -/
theorem boundary_take_drop (t : List Char) (i : Nat) (h : i ≤ t.length) :
    boundaryAt t i
      = (edgeWord (t.take i).getLast? != edgeWord (t.drop i).head?) := by
  have hb := boundary_append (t.take i) (t.drop i)
  rw [List.take_append_drop, List.length_take] at hb
  rwa [min_eq_left h] at hb

/-- The matcher's regex test agrees with the whole-word-occurrence
specification. -/
theorem keywordMatches_iff (k t : List Char) :
    keywordMatches k t = true ↔ OccursAsWholeWord k t := by
  constructor
  · intro h
    rw [keywordMatches, List.any_eq_true] at h
    obtain ⟨i, hmem, hP⟩ := h
    rw [List.mem_range] at hmem
    rw [Bool.and_eq_true, Bool.and_eq_true] at hP
    obtain ⟨⟨hEq, hb1⟩, hb2⟩ := hP
    rw [lowerEqAt, beq_iff_eq] at hEq
    have hi : i ≤ t.length := by omega
    have hmidlen : ((t.drop i).take k.length).length = k.length := by
      have hl := congrArg List.length hEq
      simpa using hl
    have hik : i + k.length ≤ t.length := by
      rw [List.length_take, List.length_drop] at hmidlen
      omega
    have hsplit : (t.drop i).take k.length ++ t.drop (i + k.length) = t.drop i := by
      conv_rhs => rw [← List.take_append_drop k.length (t.drop i)]
      rw [List.drop_drop]
    refine ⟨t.take i, (t.drop i).take k.length, t.drop (i + k.length), ?_, hEq, ?_, ?_⟩
    · rw [List.append_assoc, hsplit, List.take_append_drop]
    · have hb := boundary_take_drop t i hi
      rw [hb, bne_iff_ne] at hb1
      rw [hsplit]
      exact hb1
    · have hb := boundary_take_drop t (i + k.length) hik
      rw [hb, bne_iff_ne] at hb2
      have hpm : t.take i ++ (t.drop i).take k.length = t.take (i + k.length) :=
        (List.take_add t i k.length).symm
      rw [hpm]
      exact hb2
  · rintro ⟨pre, mid, post, hT, hmap, hb1, hb2⟩
    have hmidlen : mid.length = k.length := by
      have hl := congrArg List.length hmap
      simpa using hl
    rw [keywordMatches, List.any_eq_true]
    refine ⟨pre.length, ?_, ?_⟩
    · rw [List.mem_range]
      subst hT
      simp only [List.length_append]
      omega
    · rw [Bool.and_eq_true, Bool.and_eq_true]
      have hdrop : t.drop pre.length = mid ++ post := by
        rw [hT, List.append_assoc, List.drop_left]
      refine ⟨⟨?_, ?_⟩, ?_⟩
      · rw [lowerEqAt, beq_iff_eq, hdrop, ← hmidlen, List.take_left]
        exact hmap
      · have ht2 : t = pre ++ (mid ++ post) := by rw [hT, List.append_assoc]
        rw [ht2, boundary_append, bne_iff_ne]
        exact hb1
      · have hlen : (pre ++ mid).length = pre.length + k.length := by
          rw [List.length_append, hmidlen]
        rw [hT, ← hlen, boundary_append, bne_iff_ne]
        exact hb2

/-- **C2**: for every subscription keyword `k` and text block `t`, the
matcher's test succeeds iff `k` occurs in `t` as a whole word under
case-insensitive comparison, with `k` treated as a literal string; in
particular keyword "AI" matches "AI is transforming airlines" and
keyword "air" does not match "airlines". -/
theorem keyword_match_iff_whole_word :
    (∀ k t : List Char, keywordMatches k t = true ↔ OccursAsWholeWord k t) ∧
    keywordMatches "AI".data "AI is transforming airlines".data = true ∧
    keywordMatches "air".data "airlines".data = false :=
  ⟨keywordMatches_iff, by decide, by decide⟩

/-- Invariant of the `notify_alerts` loop: the notifications for a given
chat are empty if the chat is already marked notified, and otherwise
consist of exactly the first remaining row whose keyword matches. -/
theorem notifyGo_filter (text : List Char) (rows : List (String × String)) :
    ∀ (notified : List String) (chat : String),
      (notifyGo text notified rows).filter (fun r => decide (r.1 = chat)) =
        if chat ∈ notified then []
        else (rows.filter fun r =>
          decide (r.1 = chat) && keywordMatches r.2.data text).take 1 := by
  induction rows with
  | nil =>
    intro notified chat
    simp [notifyGo]
  | cons r rs ih =>
    intro notified chat
    simp only [notifyGo]
    by_cases hm : keywordMatches r.2.data text = true ∧ r.1 ∉ notified
    case pos =>
      rw [if_pos hm]
      by_cases hc : r.1 = chat
      · have hdec : decide (r.1 = chat) = true := by simp [hc]
        rw [List.filter_cons, if_pos hdec, ih (r.1 :: notified) chat]
        have hmem : chat ∈ r.1 :: notified := by
          rw [← hc]
          exact List.mem_cons_self r.1 notified
        rw [if_pos hmem]
        have hnn : chat ∉ notified := by
          rw [← hc]
          exact hm.2
        rw [if_neg hnn, List.filter_cons, if_pos (by simp [hc, hm.1])]
        rfl
      · have hdec : decide (r.1 = chat) = false := by simp [hc]
        rw [List.filter_cons, if_neg (by rw [hdec]; exact Bool.false_ne_true),
          ih (r.1 :: notified) chat]
        have hmem : (chat ∈ r.1 :: notified) ↔ (chat ∈ notified) := by
          constructor
          · intro h
            rcases List.mem_cons.mp h with h1 | h2
            · exact absurd h1.symm hc
            · exact h2
          · exact fun h => List.mem_cons_of_mem _ h
        by_cases hn : chat ∈ notified
        · rw [if_pos (hmem.mpr hn), if_pos hn]
        · rw [if_neg (fun h => hn (hmem.mp h)), if_neg hn, List.filter_cons,
            if_neg (by rw [hdec, Bool.false_and]; exact Bool.false_ne_true)]
    case neg =>
      rw [if_neg hm, ih notified chat]
      by_cases hn : chat ∈ notified
      · rw [if_pos hn, if_pos hn]
      · rw [if_neg hn, if_neg hn]
        have hfalse : (decide (r.1 = chat) && keywordMatches r.2.data text) = false := by
          push_neg at hm
          by_cases hc : r.1 = chat
          · by_cases hk : keywordMatches r.2.data text = true
            · exact absurd (hc ▸ hm hk) hn
            · rw [(Bool.not_eq_true _).mp hk, Bool.and_false]
          · simp [hc]
        rw [List.filter_cons, if_neg (by rw [hfalse]; exact Bool.false_ne_true)]

/-- **C3**: in one invocation of the notification matcher each chat
receives at most one notification — exactly the one for the first keyword
in iteration order that matches the text; every later matching keyword
for the same chat is suppressed. -/
theorem notify_per_chat_first_match_only
    (rows : List (String × String)) (text : List Char) (chat : String) :
    (notifyAlerts rows text).filter (fun r => decide (r.1 = chat)) =
      (rows.filter fun r =>
        decide (r.1 = chat) && keywordMatches r.2.data text).take 1 ∧
    ((notifyAlerts rows text).filter (fun r => decide (r.1 = chat))).length ≤ 1 := by
  have h := notifyGo_filter text rows [] chat
  rw [if_neg (List.not_mem_nil chat)] at h
  rw [notifyAlerts]
  refine ⟨h, ?_⟩
  rw [h]
  exact List.length_take_le 1 _

/-- **C1 counterexample**: a fetched text beginning with "Error:" does
not make the pipeline emit zero notifications — `notify_alerts` runs on
the fetched text before the prefix check, so a subscription to the
keyword "error" is notified. -/
theorem news_error_text_still_matches_alerts :
    startsWithErr "Error: GNews API Key not found.".data = true ∧
    (newsPipeline [⟨1, "7", "error"⟩]
        "Error: GNews API Key not found.".data "sum".data).notified
      = [("7", "error")] ∧
    (newsPipeline [⟨1, "7", "error"⟩]
        "Error: GNews API Key not found.".data "sum".data).notified ≠ [] := by
  refine ⟨by decide, by decide, by decide⟩

/-- **C1 (amended)**: for every news request whose fetched text begins
with "Error:" or "No news", the core performs no store append and sends
the fetched text verbatim to the user; notification matching is not
skipped — it runs over the fetched text before the prefix check, so its
notifications are exactly those of the matcher on that text. -/
theorem news_error_prefix_skips_append_and_forwards_verbatim
    (db : List AlertRow) (newsData summary : List Char)
    (h : startsWithErr newsData = true) :
    (newsPipeline db newsData summary).logged = false ∧
    (newsPipeline db newsData summary).reply = .fetchError newsData ∧
    (newsPipeline db newsData summary).notified = notifyFromDb db newsData := by
  simp [newsPipeline, h]

/-- Witness for the amended C1 at a concrete failed fetch. -/
theorem news_error_prefix_witness :
    startsWithErr "No news today".data = true ∧
    (newsPipeline [] "No news today".data "s".data).logged = false :=
  ⟨by decide,
   (news_error_prefix_skips_append_and_forwards_verbatim
     [] "No news today".data "s".data (by decide)).1⟩

/-- **C4 counterexample**: with two records of one chat sharing a
timestamp, the history query may return them in ascending surrogate-key
order — the SQL names no secondary sort key, so descending-id tie-break
is not guaranteed. -/
theorem recent_tie_order_not_descending_id :
    historyQuery
      [⟨1, "c", "a", "", "", 5⟩, ⟨2, "c", "b", "", "", 5⟩] "c" 2
      [⟨1, "c", "a", "", "", 5⟩, ⟨2, "c", "b", "", "", 5⟩] ∧
    ¬ MostRecentFirstIdTieBreak
      [⟨1, "c", "a", "", "", 5⟩, ⟨2, "c", "b", "", "", 5⟩] := by
  constructor
  · refine ⟨[⟨1, "c", "a", "", "", 5⟩, ⟨2, "c", "b", "", "", 5⟩], ?_, ?_, rfl⟩
    · have hrows : rowsOfChat
          [⟨1, "c", "a", "", "", 5⟩, ⟨2, "c", "b", "", "", 5⟩] "c"
          = [⟨1, "c", "a", "", "", 5⟩, ⟨2, "c", "b", "", "", 5⟩] := by decide
      rw [hrows]
    · show List.Pairwise _ _
      decide
  · show ¬ List.Pairwise _ _
    decide

/-- **C4 (amended)**: every result of `recent(chat_id, limit)` is
most-recent-first by timestamp and bounded to `limit` rows, and contains
only records of the chat; the order among records with equal timestamps
is unspecified (the query has no secondary sort key). -/
theorem recent_sorted_by_timestamp_desc_limited
    (db : List InteractionRow) (chat : String) (n : Nat)
    (res : List InteractionRow) (h : historyQuery db chat n res) :
    TimestampDesc res ∧ res.length ≤ n ∧
    ∀ r ∈ res, r ∈ db ∧ r.chat_id = chat := by
  obtain ⟨sorted, hperm, hsort, hres⟩ := h
  subst hres
  refine ⟨?_, List.length_take_le n sorted, ?_⟩
  · exact List.Pairwise.sublist (List.take_sublist n sorted) hsort
  · intro r hr
    have hmem : r ∈ sorted := (List.take_subset n sorted) hr
    have hchat : r ∈ rowsOfChat db chat := hperm.subset hmem
    rw [rowsOfChat, List.mem_filter] at hchat
    exact ⟨hchat.1, of_decide_eq_true hchat.2⟩

/-- Witness for the amended C4 at a concrete one-row table. -/
theorem recent_sorted_witness :
    TimestampDesc [(⟨1, "c", "a", "", "", 1⟩ : InteractionRow)] ∧
    ([(⟨1, "c", "a", "", "", 1⟩ : InteractionRow)]).length ≤ 3 := by
  have hq : historyQuery [⟨1, "c", "a", "", "", 1⟩] "c" 3
      [⟨1, "c", "a", "", "", 1⟩] := by
    refine ⟨[⟨1, "c", "a", "", "", 1⟩], ?_, ?_, rfl⟩
    · have hrows : rowsOfChat [⟨1, "c", "a", "", "", 1⟩] "c"
          = [⟨1, "c", "a", "", "", 1⟩] := by decide
      rw [hrows]
    · show List.Pairwise _ _
      decide
  have h := recent_sorted_by_timestamp_desc_limited
    [⟨1, "c", "a", "", "", 1⟩] "c" 3 [⟨1, "c", "a", "", "", 1⟩] hq
  exact ⟨h.1, h.2.1⟩

/-- Mapping `str.lower` over a string leaves no uppercase letter. -/
theorem noUpper_map_toLower (l : List Char) :
    noUpperList (l.map Char.toLower) = true := by
  rw [noUpperList, List.all_eq_true]
  intro c hc
  obtain ⟨a, _, rfl⟩ := List.mem_map.mp hc
  rw [toLower_not_upper]
  rfl

/-- `strip` only removes characters. -/
theorem stripList_subset (l : List Char) : stripList l ⊆ l := by
  intro x hx
  rw [stripList, List.mem_reverse] at hx
  have h1 : x ∈ (l.dropWhile Char.isWhitespace).reverse :=
    (List.dropWhile_sublist _).subset hx
  rw [List.mem_reverse] at h1
  exact (List.dropWhile_sublist _).subset h1

/-- `noUpperList` is monotone under taking a subset. -/
theorem noUpper_of_subset {l l' : List Char} (hs : l' ⊆ l)
    (h : noUpperList l = true) : noUpperList l' = true := by
  rw [noUpperList, List.all_eq_true] at h ⊢
  exact fun c hc => h c (hs hc)

/-- The head surviving a `dropWhile` fails the dropped predicate. -/
theorem head_dropWhile_elim (p : Char → Bool) (l : List Char) :
    ((l.dropWhile p).head?.elim false p) = false := by
  induction l with
  | nil => rfl
  | cons a l ih =>
    rw [List.dropWhile_cons]
    by_cases h : p a = true
    · rw [if_pos h]
      exact ih
    · rw [if_neg h]
      simpa using h

/-- `dropWhile` keeps the last element when its result is nonempty. -/
theorem getLast?_dropWhile_ne_nil (p : Char → Bool) (l : List Char)
    (h : l.dropWhile p ≠ []) : (l.dropWhile p).getLast? = l.getLast? := by
  induction l with
  | nil => exact absurd rfl h
  | cons a l ih =>
    rw [List.dropWhile_cons] at h ⊢
    by_cases hp : p a = true
    · rw [if_pos hp] at h ⊢
      have hl : l ≠ [] := by
        intro e
        subst e
        exact h rfl
      rw [ih h]
      cases l with
      | nil => exact absurd rfl hl
      | cons b l2 => rw [List.getLast?_cons_cons]
    · rw [if_neg hp]

/-- A stripped string carries no whitespace at either edge. -/
theorem noEdge_stripList (l : List Char) :
    noEdgeWhitespace (stripList l) = true := by
  rw [stripList, noEdgeWhitespace, List.head?_reverse, List.getLast?_reverse,
    Bool.and_eq_true]
  constructor
  · by_cases hwe :
      (l.dropWhile Char.isWhitespace).reverse.dropWhile Char.isWhitespace = []
    · rw [hwe]
      rfl
    · rw [getLast?_dropWhile_ne_nil _ _ hwe, List.getLast?_reverse,
        head_dropWhile_elim]
      rfl
  · rw [head_dropWhile_elim]
    rfl

/-- **C5 counterexample**: when the caller supplies no topic the stored
default is the literal `"India"`, which still contains an uppercase
letter — it is not the lower-cased fallback the claim describes. -/
theorem default_topic_not_lowercased :
    computeInputTopic [] = "India".data ∧
    noUpperList "India".data = false := by
  refine ⟨by decide, by decide⟩

/-- **C5 (amended)**: every stored `input_topic` is either the
lower-cased, trimmed user topic (no uppercase letters, no edge
whitespace) or — when the normalized topic is empty because the caller
supplied none — the literal fallback `"India"`, which is not
lower-cased. -/
theorem input_topic_normalized_or_default_india (args : List String) :
    computeInputTopic args = "India".data ∨
    (computeInputTopic args = normalizeTopic args ∧
     noUpperList (computeInputTopic args) = true ∧
     noEdgeWhitespace (computeInputTopic args) = true) := by
  by_cases h : normalizeTopic args = []
  · left
    simp [computeInputTopic, h]
  · right
    have he : computeInputTopic args = normalizeTopic args := by
      simp [computeInputTopic, h]
    refine ⟨he, ?_, ?_⟩
    · rw [he, normalizeTopic]
      exact noUpper_of_subset (stripList_subset _) (noUpper_map_toLower _)
    · rw [he, normalizeTopic]
      exact noEdge_stripList _

/-- A list splits into the rows counted by a predicate and the rows kept
by its negation. -/
theorem length_split_filter {α : Type} (p : α → Bool) (l : List α) :
    l.countP p + (l.filter fun a => !(p a)).length = l.length := by
  induction l with
  | nil => rfl
  | cons a l ih =>
    rw [List.filter_cons, List.length_cons]
    by_cases h : p a = true
    · rw [List.countP_cons_of_pos _ _ h, if_neg (by rw [h]; decide)]
      omega
    · rw [List.countP_cons_of_neg _ _ h, if_pos (by simpa using h),
        List.length_cons]
      omega

/-- **C6**: `unsubscribe(chat_id, keyword)` deletes every row matching
both fields and returns the number removed (0 when none matched); in
particular subscribing the same pair twice and unsubscribing once returns
2, and unsubscribing again returns 0. -/
theorem unsubscribe_removes_all_and_counts :
    (∀ (db : List AlertRow) (chat keyword : String),
       (∀ r ∈ (unsubscribe db chat keyword).1,
          ¬(r.chat_id = chat ∧ r.keyword = keyword)) ∧
       (unsubscribe db chat keyword).2 +
         (unsubscribe db chat keyword).1.length = db.length ∧
       (∀ r ∈ db, ¬(r.chat_id = chat ∧ r.keyword = keyword) →
          r ∈ (unsubscribe db chat keyword).1)) ∧
    (unsubscribe (subscribe (subscribe [] 1 "c" "ai") 2 "c" "ai")
      "c" "ai").2 = 2 ∧
    (unsubscribe
      (unsubscribe (subscribe (subscribe [] 1 "c" "ai") 2 "c" "ai")
        "c" "ai").1 "c" "ai").2 = 0 := by
  refine ⟨?_, by decide, by decide⟩
  intro db chat keyword
  refine ⟨?_, ?_, ?_⟩
  · intro r hr
    rw [unsubscribe] at hr
    simp only [List.mem_filter] at hr
    have hb := hr.2
    rw [Bool.not_eq_true', decide_eq_false_iff_not] at hb
    exact hb
  · exact length_split_filter _ db
  · intro r hr hnot
    rw [unsubscribe]
    simp only [List.mem_filter]
    exact ⟨hr, by rw [Bool.not_eq_true', decide_eq_false_iff_not]; exact hnot⟩

/-- Witness for C6 at a concrete table: a non-matching row survives the
delete. -/
theorem unsubscribe_witness :
    ¬((⟨2, "d", "x"⟩ : AlertRow).chat_id = "c" ∧
      (⟨2, "d", "x"⟩ : AlertRow).keyword = "ai") :=
  (unsubscribe_removes_all_and_counts.1
    [⟨1, "c", "ai"⟩, ⟨2, "d", "x"⟩] "c" "ai").1 ⟨2, "d", "x"⟩ (by decide)

/-- **C7 counterexample**: the argument "0" passes the digit check and is
used as the limit, so a non-positive user limit is not coerced to 3. -/
theorem history_limit_zero_not_coerced :
    parseLimit ["0"] = 0 ∧ parseLimit ["0"] ≠ 3 ∧ ¬0 < parseLimit ["0"] := by
  decide

/-- **C7 (amended)**: a missing or non-all-digits argument is coerced to
the default of 3; an all-digits argument is used as its numeric value,
which may be 0. -/
theorem history_limit_default_on_missing_or_nondigit (args : List String) :
    parseLimit args = 3 ∨
    ∃ a rest, args = a :: rest ∧ isDigitString a = true ∧
      parseLimit args = natOfDigits a := by
  match args with
  | [] => exact Or.inl rfl
  | a :: rest =>
    by_cases h : isDigitString a = true
    · exact Or.inr ⟨a, rest, rfl, h, by simp [parseLimit, h]⟩
    · exact Or.inl (by simp [parseLimit, h])

/-- **C8**: the Discover view is the set difference between the topic set
of `global_topic_frequency(10)` and `distinct_topics(chat_id)` (stated as
a membership contract — no ordering guarantee); on the P7 table it yields
exactly the set of c and d, a fully-explored chat gets the empty result,
and the empty result produces the same "nothing to discover" outcome as
an empty store. -/
theorem discover_set_difference :
    (∀ (db : List InteractionRow) (chat t : String),
       t ∈ discoverUnexplored db chat ↔
         (t ∈ trendingTopics db ∧ t ∉ distinctTopicsFor db chat)) ∧
    (discoverUnexplored dbP7 "c1").toFinset = ({"c", "d"} : Finset String) ∧
    nothingToDiscover dbP7full "c1" = true ∧
    (∀ chat : String, nothingToDiscover [] chat = true) := by
  refine ⟨?_, by decide, by decide, ?_⟩
  · intro db chat t
    rw [discoverUnexplored, List.mem_filter, decide_eq_true_eq]
  · intro chat
    rfl

/-- **C9**: `topic_frequency(chat_id, top_n)` groups the chat's records
by `input_topic` with their occurrence counts and returns the pairs in
count-descending order bounded to `top_n`; on topics a, a, b it returns
(a,2) then (b,1). -/
theorem topic_frequency_grouped_sorted :
    (∀ (db : List InteractionRow) (chat : String) (n : Nat),
       ∃ l : List (String × Nat),
         l.Perm (chatTopicCounts db chat) ∧
         l.Pairwise (fun a b => b.2 ≤ a.2) ∧
         topicFrequency db chat n = l.take n) ∧
    (∀ (db : List InteractionRow) (chat : String) (p : String × Nat),
       p ∈ chatTopicCounts db chat →
         p.2 = (topicsOf (rowsOfChat db chat)).count p.1) ∧
    topicFrequency dbC9 "c" 5 = [("a", 2), ("b", 1)] := by
  refine ⟨?_, ?_, by decide⟩
  · intro db chat n
    refine ⟨(chatTopicCounts db chat).insertionSort (fun a b => b.2 ≤ a.2),
      ?_, ?_, rfl⟩
    · exact List.perm_insertionSort _ _
    · exact List.sorted_insertionSort _ _
  · intro db chat p hp
    rw [chatTopicCounts, topicCounts] at hp
    obtain ⟨t, _, rfl⟩ := List.mem_map.mp hp
    rfl

/-- Witness for C9's grouping clause at the P3 table. -/
theorem topic_frequency_witness :
    2 = (topicsOf (rowsOfChat dbC9 "c")).count "a" :=
  topic_frequency_grouped_sorted.2.1 dbC9 "c" ("a", 2) (by decide)

/-- Appending a pair already present (in the list or among the seen ones)
does not change the distinct-pair projection. -/
theorem firstDedupGo_append_mem (x : String × String) :
    ∀ (l seen : List (String × String)),
      (x ∈ l ∨ x ∈ seen) →
      firstDedupGo seen (l ++ [x]) = firstDedupGo seen l := by
  intro l
  induction l with
  | nil =>
    intro seen h
    have hx : x ∈ seen := by
      rcases h with h1 | h2
      · exact absurd h1 (List.not_mem_nil x)
      · exact h2
    show firstDedupGo seen [x] = firstDedupGo seen []
    simp only [firstDedupGo, if_pos hx]
  | cons a l ih =>
    intro seen h
    by_cases ha : a ∈ seen
    · simp only [List.cons_append, firstDedupGo, if_pos ha]
      apply ih
      rcases h with h1 | h2
      · rcases List.mem_cons.mp h1 with h3 | h4
        · subst h3
          exact Or.inr ha
        · exact Or.inl h4
      · exact Or.inr h2
    · simp only [List.cons_append, firstDedupGo, if_neg ha]
      congr 1
      apply ih
      rcases h with h1 | h2
      · rcases List.mem_cons.mp h1 with h3 | h4
        · subst h3
          exact Or.inr (List.mem_cons_self _ _)
        · exact Or.inl h4
      · exact Or.inr (List.mem_cons_of_mem _ h2)

/-- **C10**: the matcher reads only distinct `(chat_id, keyword)` pairs,
so appending a duplicate subscription row leaves the emitted
notifications of every text unchanged. -/
theorem notify_unchanged_by_duplicate_subscription
    (db : List AlertRow) (r : AlertRow) (text : List Char)
    (h : (r.chat_id, r.keyword) ∈ alertPairs db) :
    notifyFromDb (db ++ [r]) text = notifyFromDb db text := by
  rw [notifyFromDb, notifyFromDb, firstDedup, firstDedup]
  have hpairs : alertPairs (db ++ [r])
      = alertPairs db ++ [(r.chat_id, r.keyword)] := by
    rw [alertPairs, alertPairs, List.map_append]
    rfl
  rw [hpairs, firstDedupGo_append_mem _ _ _ (Or.inl h)]

/-- Witness for C10: subscribing the same chat and keyword twice yields
the same notifications as subscribing once. -/
theorem notify_duplicate_witness :
    notifyFromDb [⟨1, "9", "ai"⟩, ⟨2, "9", "ai"⟩] "ai chips".data =
      notifyFromDb [⟨1, "9", "ai"⟩] "ai chips".data :=
  notify_unchanged_by_duplicate_subscription [⟨1, "9", "ai"⟩] ⟨2, "9", "ai"⟩
    "ai chips".data (by decide)
